import Mathlib

/-!
Shallow embedding of the Husk compiler front end
(tokenization.hpp `Tokenizer`, ast.hpp `Parser`, codegen.hpp `CodeGen`)
with theorems settling the specification's claims about it.
-/

namespace Husk

/-- `enum class TokenType` of tokenization.hpp. The C++ enumerator `let`
is spelled `letKw` here because `let` is reserved in Lean. -/
inductive TokenType where
  | int_lit
  | semi
  | open_paren
  | close_paren
  | open_curly
  | close_curly
  | ident
  | letKw
  | eq
  | plus
  | star
  | minus
  | fslash
  | print
  | fn
  | ret
deriving DecidableEq, Repr

/-- `struct Token` of tokenization.hpp: kind, optional literal text,
and the `(line, column)` counters captured by `make_token`. -/
structure Token where
  type : TokenType
  value : Option String := none
  line : Nat := 1
  column : Nat := 1
deriving DecidableEq, Repr

/-- C locale `isalpha` on the ASCII range. -/
def isAlphaCh (c : Char) : Bool :=
  ('a' ≤ c && c ≤ 'z') || ('A' ≤ c && c ≤ 'Z')

/-- C locale `isdigit`. -/
def isDigitCh (c : Char) : Bool :=
  '0' ≤ c && c ≤ '9'

/-- C locale `isalnum`. -/
def isAlnumCh (c : Char) : Bool :=
  isAlphaCh c || isDigitCh c

/-- C locale `isspace`: space, tab, newline, vertical tab, form feed,
carriage return. -/
def isSpaceCh (c : Char) : Bool :=
  c = ' ' || c = '\t' || c = '\n' || c = '\x0b' || c = '\x0c' || c = '\r'

/-- The `while (peek && isalnum) consume()` loop inside the identifier
branch of `Tokenizer::tokenize`: the consumed alphanumeric run and the
remaining characters. -/
def spanAlnum : List Char → List Char × List Char
  | [] => ([], [])
  | c :: cs =>
    if isAlnumCh c then
      let p := spanAlnum cs
      (c :: p.1, p.2)
    else
      ([], c :: cs)

/-- The `while (peek && isdigit) consume()` loop inside the integer
branch of `Tokenizer::tokenize`. -/
def spanDigits : List Char → List Char × List Char
  | [] => ([], [])
  | c :: cs =>
    if isDigitCh c then
      let p := spanDigits cs
      (c :: p.1, p.2)
    else
      ([], c :: cs)

theorem spanAlnum_rest_length (cs : List Char) :
    (spanAlnum cs).2.length ≤ cs.length := by
  induction cs with
  | nil => simp [spanAlnum]
  | cons c cs ih =>
    simp only [spanAlnum]
    split
    · exact Nat.le_succ_of_le ih
    · simp

theorem spanDigits_rest_length (cs : List Char) :
    (spanDigits cs).2.length ≤ cs.length := by
  induction cs with
  | nil => simp [spanDigits]
  | cons c cs ih =>
    simp only [spanDigits]
    split
    · exact Nat.le_succ_of_le ih
    · simp

/-- The error value of the tokenizer's "Unexpected character" path,
keeping the offending character and the `m_line`/`m_column` counters at
the moment `createStringError` is called. -/
structure LexErr where
  ch : Char
  line : Nat
  column : Nat
deriving DecidableEq, Repr

/-- The keyword dispatch of the identifier branch: `buf == "let"`,
`"print"`, `"fn"`, `"return"`, otherwise an `ident` token carrying
`buf`. The token's position is `make_token`'s, i.e. the counters after
the whole word was consumed. -/
def classifyWord (buf : String) (line column : Nat) : Token :=
  if buf = "let" then { type := .letKw, line := line, column := column }
  else if buf = "print" then { type := .print, line := line, column := column }
  else if buf = "fn" then { type := .fn, line := line, column := column }
  else if buf = "return" then { type := .ret, line := line, column := column }
  else { type := .ident, value := some buf, line := line, column := column }

/-- Single-character token dispatch of `Tokenizer::tokenize`: the chain
of `else if (current == ...)` branches for `( ) { } + - * = ;`.
Note the source has no `/` branch, so `/` falls through to the
"Unexpected character" error. -/
def singleCharTok (c : Char) : Option TokenType :=
  if c = '(' then some .open_paren
  else if c = ')' then some .close_paren
  else if c = '{' then some .open_curly
  else if c = '}' then some .close_curly
  else if c = '+' then some .plus
  else if c = '-' then some .minus
  else if c = '*' then some .star
  else if c = '=' then some .eq
  else if c = ';' then some .semi
  else none

/-- `Tokenizer::tokenize` of tokenization.hpp over the remaining
characters, threading the `m_line` and `m_column` counters. `consume()`
increments `m_column` once per consumed character; `make_token` records
the counters at the moment it is called, i.e. after the token's
characters were consumed. In the whitespace branch the counter is
updated once by the branch itself and once more by the `consume()` that
follows it (so a `'\n'` leaves the column at 2, not 1). -/
def tokenize : List Char → Nat → Nat → Except LexErr (List Token)
  | [], _, _ => .ok []
  | c :: cs, line, column =>
    if isAlphaCh c then
      let p := spanAlnum cs
      let buf : String := ⟨c :: p.1⟩
      let column' := column + 1 + p.1.length
      match tokenize p.2 line column' with
      | .ok ts => .ok (classifyWord buf line column' :: ts)
      | .error e => .error e
    else if isDigitCh c then
      let p := spanDigits cs
      let buf : String := ⟨c :: p.1⟩
      let column' := column + 1 + p.1.length
      match tokenize p.2 line column' with
      | .ok ts => .ok ({ type := .int_lit, value := some buf,
                         line := line, column := column' } :: ts)
      | .error e => .error e
    else
      match singleCharTok c with
      | some tp =>
        match tokenize cs line (column + 1) with
        | .ok ts => .ok ({ type := tp, line := line, column := column + 1 } :: ts)
        | .error e => .error e
      | none =>
        if isSpaceCh c then
          if c = '\n' then tokenize cs (line + 1) 2
          else tokenize cs line (column + 2)
        else .error ⟨c, line, column⟩
termination_by cs _ _ => cs.length
decreasing_by
  · simpa using Nat.lt_succ_of_le (spanAlnum_rest_length cs)
  · simpa using Nat.lt_succ_of_le (spanDigits_rest_length cs)
  · simp
  · simp
  · simp

/-- Entry point: `Tokenizer` starts with `m_line = 1`, `m_column = 1`. -/
def tokenizeStr (src : String) : Except LexErr (List Token) :=
  tokenize src.data 1 1

/-! ## AST (ast.hpp) -/

/-- `struct ASTPrimaryExpr`: literal or identifier token. -/
structure ASTPrimaryExpr where
  int_lit : Option Token := none
  ident : Option Token := none
deriving DecidableEq, Repr

/-- `struct ASTExpr` with its `variant<ASTPrimaryExpr, ASTBinaryExpr>`:
`bin` is `ASTBinaryExpr` (primary lhs, operator token, recursive rhs). -/
inductive ASTExpr where
  | prim (p : ASTPrimaryExpr)
  | bin (lhs : ASTPrimaryExpr) (op : Token) (rhs : ASTExpr)
deriving DecidableEq, Repr

/-- `struct ASTLetStmt`. -/
structure ASTLetStmt where
  ident : Token
  expr : ASTExpr
deriving DecidableEq, Repr

/-- `struct ASTPrintStmt`. -/
structure ASTPrintStmt where
  expr : ASTExpr
deriving DecidableEq, Repr

/-- `struct ASTExprStmt`. -/
structure ASTExprStmt where
  expr : ASTExpr
deriving DecidableEq, Repr

/-- `struct ASTReturnStmt`. -/
structure ASTReturnStmt where
  expr : ASTExpr
deriving DecidableEq, Repr

/-- `struct ASTStmt` with its four-way variant. -/
inductive ASTStmt where
  | letStmt (s : ASTLetStmt)
  | printStmt (s : ASTPrintStmt)
  | exprStmt (s : ASTExprStmt)
  | returnStmt (s : ASTReturnStmt)
deriving DecidableEq, Repr

/-- `struct ASTFunction`. -/
structure ASTFunction where
  name : Token
  body : List ASTStmt
deriving DecidableEq, Repr

/-- `struct ASTProgram`. -/
structure ASTProgram where
  functions : List ASTFunction
deriving DecidableEq, Repr

/-! ## Parser (ast.hpp) -/

/-- The parser's structured failures, one constructor per
`createStringError` call site of ast.hpp's `Parser`. -/
inductive ParseErr where
  | expectedAtEnd (context : String)
  | expectedGot (context : String) (line column : Nat)
  | expectedExpr (pos : Option (Nat × Nat))
  | unexpectedEndOfInput
  | topLevelStatement (line column : Nat)
  | missingMain
deriving DecidableEq, Repr

/-- Outcome of a parser member function: a value with the new `m_index`,
a parse error, or `overrun` — the `std::out_of_range` a `consume()` past
the end of the token buffer would raise. -/
inductive POut (α : Type) where
  | ok (a : α) (i : Nat)
  | err (e : ParseErr)
  | overrun
deriving Repr

/-- `Parser::peek` with `ahead = 1`: `m_index + 1 > m_tokens.size()`
yields nothing, otherwise `m_tokens.at(m_index)`. -/
def peekT (tks : List Token) (i : Nat) : Option Token :=
  if tks.length < i + 1 then none else tks[i]?

/-- `Parser::consume`: `m_tokens.at(m_index++)`; out of range when
`m_index` is past the end (the overrun case). -/
def consumeT (tks : List Token) (i : Nat) : Option (Token × Nat) :=
  match tks[i]? with
  | some t => some (t, i + 1)
  | none => none

theorem peekT_eq_some {tks : List Token} {i : Nat} {t : Token}
    (h : peekT tks i = some t) : tks[i]? = some t ∧ i < tks.length := by
  unfold peekT at h
  split at h
  · exact absurd h (by simp)
  · exact ⟨h, by omega⟩

theorem consumeT_eq_some {tks : List Token} {i i' : Nat} {t : Token}
    (h : consumeT tks i = some (t, i')) : i' = i + 1 ∧ i < tks.length := by
  unfold consumeT at h
  split at h
  next t' hg =>
    have : i < tks.length := by
      by_contra hc
      rw [List.getElem?_eq_none (by omega)] at hg
      exact absurd hg (by simp)
    cases h
    exact ⟨rfl, this⟩
  next => exact absurd h (by simp)

theorem consumeT_isSome_of_lt {tks : List Token} {i : Nat}
    (h : i < tks.length) : ∃ t, consumeT tks i = some (t, i + 1) := by
  unfold consumeT
  rw [List.getElem?_eq_getElem h]
  exact ⟨tks[i], rfl⟩

/-- `Parser::expect_token`. -/
def expectToken (tks : List Token) (i : Nat) (expected : TokenType)
    (context : String) : POut Token :=
  match peekT tks i with
  | none => .err (.expectedAtEnd context)
  | some token =>
    if token.type ≠ expected then
      .err (.expectedGot context token.line token.column)
    else
      match consumeT tks i with
      | some (t, i') => .ok t i'
      | none => .overrun

/-- `Parser::expect_and_consume`. -/
def expectAndConsume (tks : List Token) (i : Nat) (expected : TokenType)
    (context : String) : POut Unit :=
  match expectToken tks i expected context with
  | .ok _ i' => .ok () i'
  | .err e => .err e
  | .overrun => .overrun

/-- `Parser::parse_primary`: `optional<ASTPrimaryExpr>`, consuming one
`int_lit` or `ident` token, otherwise leaving the index unchanged. -/
def parsePrimary (tks : List Token) (i : Nat) : POut (Option ASTPrimaryExpr) :=
  match peekT tks i with
  | some t =>
    if t.type = .int_lit then
      match consumeT tks i with
      | some (tok, i') => .ok (some { int_lit := some tok }) i'
      | none => .overrun
    else if t.type = .ident then
      match consumeT tks i with
      | some (tok, i') => .ok (some { ident := some tok }) i'
      | none => .overrun
    else .ok none i
  | none => .ok none i

/-- `Parser::is_binary_operator`. -/
def isBinaryOperator : TokenType → Bool
  | .plus | .minus | .star | .fslash => true
  | _ => false

theorem parsePrimary_ok_some {tks : List Token} {i i' : Nat}
    {p : ASTPrimaryExpr} (h : parsePrimary tks i = .ok (some p) i') :
    i' = i + 1 ∧ i < tks.length := by
  unfold parsePrimary at h
  split at h
  next t hpk =>
    have hlt := (peekT_eq_some hpk).2
    split at h
    · split at h
      next t' i'' hc =>
        obtain ⟨h1, h2⟩ := consumeT_eq_some hc
        cases h
        exact ⟨h1, h2⟩
      next => exact absurd h (by simp)
    · split at h
      · split at h
        next t' i'' hc =>
          obtain ⟨h1, h2⟩ := consumeT_eq_some hc
          cases h
          exact ⟨h1, h2⟩
        next => exact absurd h (by simp)
      · exact absurd h (by simp)
  next => exact absurd h (by simp)

/-- `Parser::parse_expr`: one primary, then, if a binary operator
follows, the full recursive parse of the rest as the right operand. -/
def parseExpr (tks : List Token) (i : Nat) : POut ASTExpr :=
  match h₁ : parsePrimary tks i with
  | .overrun => .overrun
  | .err e => .err e
  | .ok none _ =>
    match peekT tks i with
    | some t => .err (.expectedExpr (some (t.line, t.column)))
    | none => .err (.expectedExpr none)
  | .ok (some primary) i₁ =>
    match peekT tks i₁ with
    | some t =>
      if isBinaryOperator t.type then
        match h₂ : consumeT tks i₁ with
        | some (op, i₂) =>
          match parseExpr tks i₂ with
          | .ok rhs i₃ => .ok (.bin primary op rhs) i₃
          | .err e => .err e
          | .overrun => .overrun
        | none => .overrun
      else .ok (.prim primary) i₁
    | none => .ok (.prim primary) i₁
termination_by tks.length - i
decreasing_by
  have hp := parsePrimary_ok_some h₁
  have hc := consumeT_eq_some h₂
  omega

theorem expectToken_ok {tks : List Token} {i i' : Nat} {tp : TokenType}
    {c : String} {t : Token} (h : expectToken tks i tp c = .ok t i') :
    i' = i + 1 ∧ i < tks.length := by
  unfold expectToken at h
  split at h
  next => exact absurd h (by simp)
  next token hpk =>
    split at h
    · exact absurd h (by simp)
    · split at h
      next t'' i'' hc =>
        obtain ⟨h1, h2⟩ := consumeT_eq_some hc
        cases h
        exact ⟨h1, h2⟩
      next => exact absurd h (by simp)

theorem expectAndConsume_ok {tks : List Token} {i i' : Nat}
    {tp : TokenType} {c : String} {u : Unit}
    (h : expectAndConsume tks i tp c = .ok u i') :
    i' = i + 1 ∧ i < tks.length := by
  unfold expectAndConsume at h
  split at h
  next t j he =>
    cases h
    exact expectToken_ok he
  next => exact absurd h (by simp)
  next => exact absurd h (by simp)

/-- `Parser::parse_let` (the `let` keyword itself was consumed by
`parse_statement`): identifier, `=`, initializer expression. -/
def parseLet (tks : List Token) (i : Nat) : POut ASTLetStmt :=
  match expectToken tks i .ident "identifier after 'let'" with
  | .err e => .err e
  | .overrun => .overrun
  | .ok ident i₁ =>
    match expectAndConsume tks i₁ .eq "'=' after identifier" with
    | .err e => .err e
    | .overrun => .overrun
    | .ok _ i₂ =>
      match parseExpr tks i₂ with
      | .err e => .err e
      | .overrun => .overrun
      | .ok expr i₃ => .ok ⟨ident, expr⟩ i₃

/-- `Parser::parse_print` (the `print` keyword was consumed by
`parse_statement`): `(`, expression, `)`. -/
def parsePrint (tks : List Token) (i : Nat) : POut ASTPrintStmt :=
  match expectAndConsume tks i .open_paren "(" with
  | .err e => .err e
  | .overrun => .overrun
  | .ok _ i₁ =>
    match parseExpr tks i₁ with
    | .err e => .err e
    | .overrun => .overrun
    | .ok expr i₂ =>
      match expectAndConsume tks i₂ .close_paren ")" with
      | .err e => .err e
      | .overrun => .overrun
      | .ok _ i₃ => .ok ⟨expr⟩ i₃

/-- `Parser::expect_semicolon`. -/
def expectSemicolon (tks : List Token) (i : Nat) (context : String) : POut Unit :=
  expectAndConsume tks i .semi ("semicolon after " ++ context)

/-- `Parser::parse_statement`: dispatch on the leading token kind. -/
def parseStatement (tks : List Token) (i : Nat) : POut ASTStmt :=
  match peekT tks i with
  | none => .err .unexpectedEndOfInput
  | some token =>
    match token.type with
    | .letKw =>
      match consumeT tks i with
      | none => .overrun
      | some (_, i₁) =>
        match parseLet tks i₁ with
        | .err e => .err e
        | .overrun => .overrun
        | .ok s i₂ =>
          match expectSemicolon tks i₂ "let" with
          | .err e => .err e
          | .overrun => .overrun
          | .ok _ i₃ => .ok (.letStmt s) i₃
    | .print =>
      match consumeT tks i with
      | none => .overrun
      | some (_, i₁) =>
        match parsePrint tks i₁ with
        | .err e => .err e
        | .overrun => .overrun
        | .ok s i₂ =>
          match expectSemicolon tks i₂ "print" with
          | .err e => .err e
          | .overrun => .overrun
          | .ok _ i₃ => .ok (.printStmt s) i₃
    | .ret =>
      match consumeT tks i with
      | none => .overrun
      | some (_, i₁) =>
        match parseExpr tks i₁ with
        | .err e => .err e
        | .overrun => .overrun
        | .ok expr i₂ =>
          match expectSemicolon tks i₂ "return" with
          | .err e => .err e
          | .overrun => .overrun
          | .ok _ i₃ => .ok (.returnStmt ⟨expr⟩) i₃
    | _ =>
      match parseExpr tks i with
      | .err e => .err e
      | .overrun => .overrun
      | .ok expr i₁ =>
        match expectSemicolon tks i₁ "expression" with
        | .err e => .err e
        | .overrun => .overrun
        | .ok _ i₂ => .ok (.exprStmt ⟨expr⟩) i₂

/-! ### The parser never consumes past the end of the token buffer:
every `consume()` follows a successful `peek()` at the same index, so
the `overrun` outcome is unreachable, and every successful call moved
the index forward. -/

theorem consumeT_ne_none_of_lt {tks : List Token} {i : Nat}
    (h : i < tks.length) : consumeT tks i ≠ none := by
  obtain ⟨t, ht⟩ := consumeT_isSome_of_lt h
  simp [ht]

theorem expectToken_ne_overrun (tks : List Token) (i : Nat)
    (tp : TokenType) (c : String) : expectToken tks i tp c ≠ .overrun := by
  unfold expectToken
  split
  next => simp
  next token hpk =>
    split
    · simp
    · split
      next => simp
      next hc => exact absurd hc (consumeT_ne_none_of_lt (peekT_eq_some hpk).2)

theorem expectAndConsume_ne_overrun (tks : List Token) (i : Nat)
    (tp : TokenType) (c : String) : expectAndConsume tks i tp c ≠ .overrun := by
  unfold expectAndConsume
  split
  · simp
  · simp
  next h => exact absurd h (expectToken_ne_overrun tks i tp c)

theorem parsePrimary_ne_overrun (tks : List Token) (i : Nat) :
    parsePrimary tks i ≠ .overrun := by
  unfold parsePrimary
  split
  next t hpk =>
    have hlt := (peekT_eq_some hpk).2
    split
    · split
      next => simp
      next hc => exact absurd hc (consumeT_ne_none_of_lt hlt)
    · split
      · split
        next => simp
        next hc => exact absurd hc (consumeT_ne_none_of_lt hlt)
      · simp
  next => simp

theorem parseExpr_spec (tks : List Token) :
    ∀ (n i : Nat), tks.length - i ≤ n →
      (∀ (e : ASTExpr) (i' : Nat), parseExpr tks i = .ok e i' → i < i') ∧
        parseExpr tks i ≠ .overrun := by
  intro n
  induction n with
  | zero =>
    intro i hn
    have hpk : peekT tks i = none := by
      unfold peekT
      rw [if_pos (by omega)]
    have hpp : parsePrimary tks i = .ok none i := by
      unfold parsePrimary
      rw [hpk]
    constructor
    · intro e i' h
      rw [parseExpr.eq_def, hpp, hpk] at h
      exact absurd h (by simp)
    · intro h
      rw [parseExpr.eq_def, hpp, hpk] at h
      exact absurd h (by simp)
  | succ n ih =>
    intro i hn
    have main : ∀ (r : POut ASTExpr), parseExpr tks i = r →
        (∀ (e : ASTExpr) (i' : Nat), r = .ok e i' → i < i') ∧ r ≠ .overrun := by
      intro r h
      rw [parseExpr.eq_def] at h
      split at h
      next hpp => -- parsePrimary overrun
        exact absurd hpp (parsePrimary_ne_overrun tks i)
      next e hpp => -- parsePrimary err: unreachable value-wise, but r = err
        subst h
        exact ⟨by intro e i' h; exact absurd h (by simp), by simp⟩
      next j hpp => -- no primary: error about expected expression
        split at h <;> subst h <;>
          exact ⟨by intro e i' h; exact absurd h (by simp), by simp⟩
      next primary i₁ hpp => -- got a primary
        obtain ⟨hi₁, hilt⟩ := parsePrimary_ok_some hpp
        split at h
        next t hpk =>
          have hi₁lt := (peekT_eq_some hpk).2
          split at h
          next hbin =>
            split at h
            next op i₂ hc =>
              obtain ⟨hi₂, _⟩ := consumeT_eq_some hc
              have hrec := ih i₂ (by omega)
              split at h
              next rhs i₃ hre =>
                subst h
                refine ⟨?_, by simp⟩
                intro e i' he
                cases he
                have := hrec.1 rhs i₃ hre
                omega
              next e hre =>
                subst h
                exact ⟨by intro e i' h; exact absurd h (by simp), by simp⟩
              next hre =>
                exact absurd hre hrec.2
            next hc => exact absurd hc (consumeT_ne_none_of_lt hi₁lt)
          next hbin =>
            subst h
            refine ⟨?_, by simp⟩
            intro e i' he
            cases he
            omega
        next hpk =>
          subst h
          refine ⟨?_, by simp⟩
          intro e i' he
          cases he
          omega
    exact main (parseExpr tks i) rfl

theorem parseExpr_ok_progress {tks : List Token} {i i' : Nat} {e : ASTExpr}
    (h : parseExpr tks i = .ok e i') : i < i' :=
  (parseExpr_spec tks (tks.length - i) i le_rfl).1 e i' h

theorem parseExpr_ne_overrun (tks : List Token) (i : Nat) :
    parseExpr tks i ≠ .overrun :=
  (parseExpr_spec tks (tks.length - i) i le_rfl).2

theorem parseLet_spec (tks : List Token) (i : Nat) :
    (∀ (s : ASTLetStmt) (i' : Nat), parseLet tks i = .ok s i' → i < i') ∧
      parseLet tks i ≠ .overrun := by
  have main : ∀ (r : POut ASTLetStmt), parseLet tks i = r →
      (∀ (s : ASTLetStmt) (i' : Nat), r = .ok s i' → i < i') ∧ r ≠ .overrun := by
    intro r h
    unfold parseLet at h
    split at h
    next => subst h; exact ⟨by intro s i' h; exact absurd h (by simp), by simp⟩
    next he => exact absurd he (expectToken_ne_overrun tks i .ident _)
    next ident i₁ he =>
      obtain ⟨hi₁, _⟩ := expectToken_ok he
      split at h
      next => subst h; exact ⟨by intro s i' h; exact absurd h (by simp), by simp⟩
      next he₂ => exact absurd he₂ (expectAndConsume_ne_overrun tks i₁ .eq _)
      next u i₂ he₂ =>
        obtain ⟨hi₂, _⟩ := expectAndConsume_ok he₂
        split at h
        next => subst h; exact ⟨by intro s i' h; exact absurd h (by simp), by simp⟩
        next he₃ => exact absurd he₃ (parseExpr_ne_overrun tks i₂)
        next expr i₃ he₃ =>
          have := parseExpr_ok_progress he₃
          subst h
          refine ⟨?_, by simp⟩
          intro s i' hh
          cases hh
          omega
  exact main (parseLet tks i) rfl

theorem parsePrint_spec (tks : List Token) (i : Nat) :
    (∀ (s : ASTPrintStmt) (i' : Nat), parsePrint tks i = .ok s i' → i < i') ∧
      parsePrint tks i ≠ .overrun := by
  have main : ∀ (r : POut ASTPrintStmt), parsePrint tks i = r →
      (∀ (s : ASTPrintStmt) (i' : Nat), r = .ok s i' → i < i') ∧ r ≠ .overrun := by
    intro r h
    unfold parsePrint at h
    split at h
    next => subst h; exact ⟨by intro s i' h; exact absurd h (by simp), by simp⟩
    next he => exact absurd he (expectAndConsume_ne_overrun tks i .open_paren _)
    next u i₁ he =>
      obtain ⟨hi₁, _⟩ := expectAndConsume_ok he
      split at h
      next => subst h; exact ⟨by intro s i' h; exact absurd h (by simp), by simp⟩
      next he₂ => exact absurd he₂ (parseExpr_ne_overrun tks i₁)
      next expr i₂ he₂ =>
        have := parseExpr_ok_progress he₂
        split at h
        next => subst h; exact ⟨by intro s i' h; exact absurd h (by simp), by simp⟩
        next he₃ => exact absurd he₃ (expectAndConsume_ne_overrun tks i₂ .close_paren _)
        next u₂ i₃ he₃ =>
          obtain ⟨hi₃, _⟩ := expectAndConsume_ok he₃
          subst h
          refine ⟨?_, by simp⟩
          intro s i' hh
          cases hh
          omega
  exact main (parsePrint tks i) rfl

theorem parseStatement_spec (tks : List Token) (i : Nat) :
    (∀ (s : ASTStmt) (i' : Nat), parseStatement tks i = .ok s i' → i < i') ∧
      parseStatement tks i ≠ .overrun := by
  have main : ∀ (r : POut ASTStmt), parseStatement tks i = r →
      (∀ (s : ASTStmt) (i' : Nat), r = .ok s i' → i < i') ∧ r ≠ .overrun := by
    intro r h
    unfold parseStatement at h
    split at h
    next => subst h; exact ⟨by intro s i' h; exact absurd h (by simp), by simp⟩
    next token hpk =>
      have hlt := (peekT_eq_some hpk).2
      split at h
      -- let statement
      · split at h
        next hc => exact absurd hc (consumeT_ne_none_of_lt hlt)
        next t i₁ hc =>
          obtain ⟨hi₁, _⟩ := consumeT_eq_some hc
          split at h
          next => subst h; exact ⟨by intro s i' h; exact absurd h (by simp), by simp⟩
          next he => exact absurd he (parseLet_spec tks i₁).2
          next s i₂ he =>
            have := (parseLet_spec tks i₁).1 s i₂ he
            split at h
            next => subst h; exact ⟨by intro s i' h; exact absurd h (by simp), by simp⟩
            next he₂ => exact absurd he₂ (expectAndConsume_ne_overrun tks i₂ .semi _)
            next u i₃ he₂ =>
              obtain ⟨hi₃, _⟩ := expectAndConsume_ok he₂
              subst h
              refine ⟨?_, by simp⟩
              intro s' i' hh
              cases hh
              omega
      -- print statement
      · split at h
        next hc => exact absurd hc (consumeT_ne_none_of_lt hlt)
        next t i₁ hc =>
          obtain ⟨hi₁, _⟩ := consumeT_eq_some hc
          split at h
          next => subst h; exact ⟨by intro s i' h; exact absurd h (by simp), by simp⟩
          next he => exact absurd he (parsePrint_spec tks i₁).2
          next s i₂ he =>
            have := (parsePrint_spec tks i₁).1 s i₂ he
            split at h
            next => subst h; exact ⟨by intro s i' h; exact absurd h (by simp), by simp⟩
            next he₂ => exact absurd he₂ (expectAndConsume_ne_overrun tks i₂ .semi _)
            next u i₃ he₂ =>
              obtain ⟨hi₃, _⟩ := expectAndConsume_ok he₂
              subst h
              refine ⟨?_, by simp⟩
              intro s' i' hh
              cases hh
              omega
      -- return statement
      · split at h
        next hc => exact absurd hc (consumeT_ne_none_of_lt hlt)
        next t i₁ hc =>
          obtain ⟨hi₁, _⟩ := consumeT_eq_some hc
          split at h
          next => subst h; exact ⟨by intro s i' h; exact absurd h (by simp), by simp⟩
          next he => exact absurd he (parseExpr_ne_overrun tks i₁)
          next expr i₂ he =>
            have := parseExpr_ok_progress he
            split at h
            next => subst h; exact ⟨by intro s i' h; exact absurd h (by simp), by simp⟩
            next he₂ => exact absurd he₂ (expectAndConsume_ne_overrun tks i₂ .semi _)
            next u i₃ he₂ =>
              obtain ⟨hi₃, _⟩ := expectAndConsume_ok he₂
              subst h
              refine ⟨?_, by simp⟩
              intro s' i' hh
              cases hh
              omega
      -- expression statement
      · split at h
        next => subst h; exact ⟨by intro s i' h; exact absurd h (by simp), by simp⟩
        next he => exact absurd he (parseExpr_ne_overrun tks i)
        next expr i₁ he =>
          have := parseExpr_ok_progress he
          split at h
          next => subst h; exact ⟨by intro s i' h; exact absurd h (by simp), by simp⟩
          next he₂ => exact absurd he₂ (expectAndConsume_ne_overrun tks i₁ .semi _)
          next u i₂ he₂ =>
            obtain ⟨hi₂, _⟩ := expectAndConsume_ok he₂
            subst h
            refine ⟨?_, by simp⟩
            intro s' i' hh
            cases hh
            omega
  exact main (parseStatement tks i) rfl

theorem parseStatement_ok_progress {tks : List Token} {i i' : Nat} {s : ASTStmt}
    (h : parseStatement tks i = .ok s i') : i < i' :=
  (parseStatement_spec tks i).1 s i' h

/-- The statement loop of `Parser::parse_function`:
`while (peek && peek->type != close_curly) body.push_back(parse_statement())`. -/
def parseFunctionBody (tks : List Token) (i : Nat) : POut (List ASTStmt) :=
  match hpk : peekT tks i with
  | none => .ok [] i
  | some t =>
    if t.type = .close_curly then .ok [] i
    else
      match h₁ : parseStatement tks i with
      | .err e => .err e
      | .overrun => .overrun
      | .ok stmt i₁ =>
        match parseFunctionBody tks i₁ with
        | .err e => .err e
        | .overrun => .overrun
        | .ok rest i₂ => .ok (stmt :: rest) i₂
termination_by tks.length - i
decreasing_by
  have h₂ := parseStatement_ok_progress h₁
  have h₃ := (peekT_eq_some hpk).2
  omega

theorem parseFunctionBody_spec (tks : List Token) :
    ∀ (n i : Nat), tks.length - i ≤ n →
      (∀ (b : List ASTStmt) (i' : Nat), parseFunctionBody tks i = .ok b i' → i ≤ i') ∧
        parseFunctionBody tks i ≠ .overrun := by
  intro n
  induction n with
  | zero =>
    intro i hn
    have hpk : peekT tks i = none := by
      unfold peekT
      rw [if_pos (by omega)]
    rw [parseFunctionBody.eq_def, hpk]
    exact ⟨by intro b i' h; cases h; omega, by simp⟩
  | succ n ih =>
    intro i hn
    have main : ∀ (r : POut (List ASTStmt)), parseFunctionBody tks i = r →
        (∀ (b : List ASTStmt) (i' : Nat), r = .ok b i' → i ≤ i') ∧ r ≠ .overrun := by
      intro r h
      rw [parseFunctionBody.eq_def] at h
      split at h
      next => subst h; exact ⟨by intro b i' hh; cases hh; omega, by simp⟩
      next t hpk =>
        have hlt := (peekT_eq_some hpk).2
        split at h
        next => subst h; exact ⟨by intro b i' hh; cases hh; omega, by simp⟩
        next =>
          split at h
          next => subst h; exact ⟨by intro b i' hh; exact absurd hh (by simp), by simp⟩
          next he => exact absurd he (parseStatement_spec tks i).2
          next stmt i₁ he =>
            have hprog := (parseStatement_spec tks i).1 stmt i₁ he
            have hrec := ih i₁ (by omega)
            split at h
            next => subst h; exact ⟨by intro b i' hh; exact absurd hh (by simp), by simp⟩
            next hre => exact absurd hre hrec.2
            next rest i₂ hre =>
              have := hrec.1 rest i₂ hre
              subst h
              refine ⟨?_, by simp⟩
              intro b i' hh
              cases hh
              omega
    exact main (parseFunctionBody tks i) rfl

theorem parseFunctionBody_ok_mono {tks : List Token} {i i' : Nat}
    {b : List ASTStmt} (h : parseFunctionBody tks i = .ok b i') : i ≤ i' :=
  (parseFunctionBody_spec tks (tks.length - i) i le_rfl).1 b i' h

theorem parseFunctionBody_ne_overrun (tks : List Token) (i : Nat) :
    parseFunctionBody tks i ≠ .overrun :=
  (parseFunctionBody_spec tks (tks.length - i) i le_rfl).2

/-- `Parser::parse_function` (the `fn` keyword was consumed by `parse`):
name, `(`, `)`, `{`, statements, `}`. -/
def parseFunction (tks : List Token) (i : Nat) : POut ASTFunction :=
  match expectToken tks i .ident "function name after 'fn'" with
  | .err e => .err e
  | .overrun => .overrun
  | .ok name i₁ =>
    match expectAndConsume tks i₁ .open_paren "(" with
    | .err e => .err e
    | .overrun => .overrun
    | .ok _ i₂ =>
      match expectAndConsume tks i₂ .close_paren ") (parameters not yet supported)" with
      | .err e => .err e
      | .overrun => .overrun
      | .ok _ i₃ =>
        match expectAndConsume tks i₃ .open_curly "\x7b to start function body" with
        | .err e => .err e
        | .overrun => .overrun
        | .ok _ i₄ =>
          match parseFunctionBody tks i₄ with
          | .err e => .err e
          | .overrun => .overrun
          | .ok body i₅ =>
            match expectAndConsume tks i₅ .close_curly "\x7d to end function body" with
            | .err e => .err e
            | .overrun => .overrun
            | .ok _ i₆ => .ok ⟨name, body⟩ i₆

theorem parseFunction_spec (tks : List Token) (i : Nat) :
    (∀ (f : ASTFunction) (i' : Nat), parseFunction tks i = .ok f i' → i ≤ i') ∧
      parseFunction tks i ≠ .overrun := by
  have main : ∀ (r : POut ASTFunction), parseFunction tks i = r →
      (∀ (f : ASTFunction) (i' : Nat), r = .ok f i' → i ≤ i') ∧ r ≠ .overrun := by
    intro r h
    unfold parseFunction at h
    split at h
    next => subst h; exact ⟨by intro f i' hh; exact absurd hh (by simp), by simp⟩
    next he => exact absurd he (expectToken_ne_overrun tks i .ident _)
    next name i₁ he =>
      obtain ⟨hi₁, _⟩ := expectToken_ok he
      split at h
      next => subst h; exact ⟨by intro f i' hh; exact absurd hh (by simp), by simp⟩
      next he₂ => exact absurd he₂ (expectAndConsume_ne_overrun tks i₁ .open_paren _)
      next u₂ i₂ he₂ =>
        obtain ⟨hi₂, _⟩ := expectAndConsume_ok he₂
        split at h
        next => subst h; exact ⟨by intro f i' hh; exact absurd hh (by simp), by simp⟩
        next he₃ => exact absurd he₃ (expectAndConsume_ne_overrun tks i₂ .close_paren _)
        next u₃ i₃ he₃ =>
          obtain ⟨hi₃, _⟩ := expectAndConsume_ok he₃
          split at h
          next => subst h; exact ⟨by intro f i' hh; exact absurd hh (by simp), by simp⟩
          next he₄ => exact absurd he₄ (expectAndConsume_ne_overrun tks i₃ .open_curly _)
          next u₄ i₄ he₄ =>
            obtain ⟨hi₄, _⟩ := expectAndConsume_ok he₄
            split at h
            next => subst h; exact ⟨by intro f i' hh; exact absurd hh (by simp), by simp⟩
            next he₅ => exact absurd he₅ (parseFunctionBody_ne_overrun tks i₄)
            next body i₅ he₅ =>
              have hi₅ := parseFunctionBody_ok_mono he₅
              split at h
              next => subst h; exact ⟨by intro f i' hh; exact absurd hh (by simp), by simp⟩
              next he₆ => exact absurd he₆ (expectAndConsume_ne_overrun tks i₅ .close_curly _)
              next u₆ i₆ he₆ =>
                obtain ⟨hi₆, _⟩ := expectAndConsume_ok he₆
                subst h
                refine ⟨?_, by simp⟩
                intro f i' hh
                cases hh
                omega
  exact main (parseFunction tks i) rfl

theorem parseFunction_ok_mono {tks : List Token} {i i' : Nat} {f : ASTFunction}
    (h : parseFunction tks i = .ok f i') : i ≤ i' :=
  (parseFunction_spec tks i).1 f i' h

/-- The top-level loop of `Parser::parse`: `fn`-prefixed function
definitions until the tokens run out; any other leading token is the
"top-level statements not allowed" error. -/
def parseProgram (tks : List Token) (i : Nat) : POut (List ASTFunction) :=
  match hpk : peekT tks i with
  | none => .ok [] i
  | some t =>
    if t.type = .fn then
      match hc : consumeT tks i with
      | none => .overrun
      | some (_, i₁) =>
        match h₁ : parseFunction tks i₁ with
        | .err e => .err e
        | .overrun => .overrun
        | .ok f i₂ =>
          match parseProgram tks i₂ with
          | .err e => .err e
          | .overrun => .overrun
          | .ok fs i₃ => .ok (f :: fs) i₃
    else .err (.topLevelStatement t.line t.column)
termination_by tks.length - i
decreasing_by
  have h₂ := parseFunction_ok_mono h₁
  have h₃ := (peekT_eq_some hpk).2
  have h₄ := consumeT_eq_some hc
  omega

theorem parseProgram_ne_overrun (tks : List Token) :
    ∀ (n i : Nat), tks.length - i ≤ n → parseProgram tks i ≠ .overrun := by
  intro n
  induction n with
  | zero =>
    intro i hn
    have hpk : peekT tks i = none := by
      unfold peekT
      rw [if_pos (by omega)]
    rw [parseProgram.eq_def, hpk]
    simp
  | succ n ih =>
    intro i hn h
    rw [parseProgram.eq_def] at h
    split at h
    next => exact absurd h (by simp)
    next t hpk =>
      have hlt := (peekT_eq_some hpk).2
      split at h
      · split at h
        next hc => exact absurd hc (consumeT_ne_none_of_lt hlt)
        next u i₁ hc =>
          obtain ⟨hi₁, _⟩ := consumeT_eq_some hc
          split at h
          next => exact absurd h (by simp)
          next he => exact absurd he (parseFunction_spec tks i₁).2
          next f i₂ he =>
            have hmono := parseFunction_ok_mono he
            split at h
            next => exact absurd h (by simp)
            next hre => exact absurd hre (ih i₂ (by omega))
            next => exact absurd h (by simp)
      · exact absurd h (by simp)

/-- `Parser::has_main_function`: some parsed function's name token has
value exactly `"main"`. -/
def hasMainFunction (fns : List ASTFunction) : Bool :=
  fns.any (fun f => f.name.value == some "main")

/-- `Parser::parse`: the function loop, then the `main` presence check;
`m_index` is reset to 0 before the program is returned. -/
def parse (tks : List Token) : POut ASTProgram :=
  match parseProgram tks 0 with
  | .err e => .err e
  | .overrun => .overrun
  | .ok fns _ =>
    if hasMainFunction fns then .ok ⟨fns⟩ 0 else .err .missingMain

theorem parse_never_overrun (tks : List Token) : parse tks ≠ .overrun := by
  unfold parse
  split
  · simp
  next h => exact absurd h (parseProgram_ne_overrun tks tks.length 0 (by omega))
  next =>
    split
    · simp
    · simp

/-! ## Lowering (codegen.hpp `CodeGen`) -/

/-- An LLVM value as the lowering handles them: the `i32` constant of
`createInt32`, or the SSA result of an emitted instruction, identified
by a fresh id (modelling the distinct `llvm::Value*` the builder
returns). -/
inductive Val where
  | constInt (n : Int)
  | reg (id : Nat)
deriving DecidableEq, Repr

/-- The instructions `CodeGen`'s builder emits into a function's entry
block: `CreateAlloca`, `CreateStore`, `CreateLoad`,
`CreateAdd/Sub/Mul/SDiv`, the `printf` call of `createPrintFunction`,
and `CreateRet`. Slots are named by their alloca's id. -/
inductive Instr where
  | alloca (id : Nat) (name : String)
  | store (v : Val) (slot : Nat)
  | load (id : Nat) (slot : Nat) (name : String)
  | add (id : Nat) (l r : Val)
  | sub (id : Nat) (l r : Val)
  | mul (id : Nat) (l r : Val)
  | sdiv (id : Nat) (l r : Val)
  | callPrintf (v : Val)
  | ret (v : Val)
deriving DecidableEq, Repr

/-- The lowering's failures, one constructor per `createStringError`
site reachable from `CodeGen::generate`; `inFunction` is the
`"In function '{}': {}"` wrapping of `generateFunctionBody`. -/
inductive CGErr where
  | duplicateBinding (name : String)
  | undefinedVariable (name : String)
  | unsupportedOperator
  | invalidPrimary
  | inFunction (fname : String) (e : CGErr)
deriving DecidableEq, Repr

/-- The builder state while lowering one function: the `variables`
symbol table (name → alloca id of the slot), the instructions emitted
into the current entry block, and the supply of fresh value ids. -/
structure CG where
  vars : List (String × Nat)
  instrs : List Instr
  nextId : Nat
deriving DecidableEq, Repr

/-- `CodeGen::variableExists`: `variables.contains(name)`. -/
def variableExists (s : CG) (name : String) : Bool :=
  (s.vars.lookup name).isSome

/-- `std::stoi` on a literal token's text: value of the leading digit
run. The tokenizer only produces all-digit texts for `int_lit`
tokens, so the exception paths of `stoi` (no digits, out of `int`
range) are not modelled. -/
def stoiL : List Char → Int → Int
  | [], acc => acc
  | c :: rest, acc =>
    if isDigitCh c then stoiL rest (acc * 10 + (c.toNat - '0'.toNat : Nat))
    else acc

/-- `stoi(token.value.value_or("0"))` as `generateIntegerLiteral` calls it. -/
def stoi (s : String) : Int := stoiL s.data 0

/-- `CodeGen::generateIntegerLiteral`: `createInt32(stoi(text))`. -/
def generateIntegerLiteral (t : Token) : Val :=
  .constInt (stoi (t.value.getD "0"))

/-- `CodeGen::generateVariableAccess`: fail with the undefined-variable
error when the name has no slot, otherwise emit a load from the slot. -/
def generateVariableAccess (t : Token) (s : CG) : Except CGErr (Val × CG) :=
  let varName := t.value.getD ""
  match s.vars.lookup varName with
  | none => .error (.undefinedVariable varName)
  | some slot =>
    .ok (.reg s.nextId,
      { s with instrs := s.instrs ++ [.load s.nextId slot varName],
               nextId := s.nextId + 1 })

/-- `CodeGen::generatePrimary`. -/
def generatePrimary (p : ASTPrimaryExpr) (s : CG) : Except CGErr (Val × CG) :=
  match p.int_lit with
  | some t => .ok (generateIntegerLiteral t, s)
  | none =>
    match p.ident with
    | some t => generateVariableAccess t s
    | none => .error .invalidPrimary

/-- `CodeGen::generateBinaryOp`. -/
def generateBinaryOp (l r : Val) (op : TokenType) (s : CG) : Except CGErr (Val × CG) :=
  match op with
  | .plus => .ok (.reg s.nextId,
      { s with instrs := s.instrs ++ [.add s.nextId l r], nextId := s.nextId + 1 })
  | .minus => .ok (.reg s.nextId,
      { s with instrs := s.instrs ++ [.sub s.nextId l r], nextId := s.nextId + 1 })
  | .star => .ok (.reg s.nextId,
      { s with instrs := s.instrs ++ [.mul s.nextId l r], nextId := s.nextId + 1 })
  | .fslash => .ok (.reg s.nextId,
      { s with instrs := s.instrs ++ [.sdiv s.nextId l r], nextId := s.nextId + 1 })
  | _ => .error .unsupportedOperator

/-- `CodeGen::generateExpr` / `generateBinaryExpression`: lhs primary,
then the recursive rhs, then the arithmetic instruction. -/
def generateExpr : ASTExpr → CG → Except CGErr (Val × CG)
  | .prim p, s => generatePrimary p s
  | .bin lhs op rhs, s =>
    match generatePrimary lhs s with
    | .error e => .error e
    | .ok (l, s₁) =>
      match generateExpr rhs s₁ with
      | .error e => .error e
      | .ok (r, s₂) => generateBinaryOp l r op.type s₂

/-- `CodeGen::generateLetStatement`: duplicate check, then the alloca —
the slot is entered into `variables` BEFORE the initializer is lowered
— then the initializer, then the store. -/
def generateLetStatement (st : ASTLetStmt) (s : CG) : Except CGErr CG :=
  let varName := st.ident.value.getD ""
  if variableExists s varName then .error (.duplicateBinding varName)
  else
    let slot := s.nextId
    let s₁ : CG :=
      { vars := (varName, slot) :: s.vars,
        instrs := s.instrs ++ [.alloca slot varName],
        nextId := s.nextId + 1 }
    match generateExpr st.expr s₁ with
    | .error e => .error e
    | .ok (v, s₂) => .ok { s₂ with instrs := s₂.instrs ++ [.store v slot] }

/-- `CodeGen::generatePrintStatement`. -/
def generatePrintStatement (st : ASTPrintStmt) (s : CG) : Except CGErr CG :=
  match generateExpr st.expr s with
  | .error e => .error e
  | .ok (v, s₁) => .ok { s₁ with instrs := s₁.instrs ++ [.callPrintf v] }

/-- `CodeGen::generateExpressionStatement`. -/
def generateExpressionStatement (st : ASTExprStmt) (s : CG) : Except CGErr CG :=
  match generateExpr st.expr s with
  | .error e => .error e
  | .ok (_, s₁) => .ok s₁

/-- `CodeGen::generateReturnStatement`. -/
def generateReturnStatement (st : ASTReturnStmt) (s : CG) : Except CGErr CG :=
  match generateExpr st.expr s with
  | .error e => .error e
  | .ok (v, s₁) => .ok { s₁ with instrs := s₁.instrs ++ [.ret v] }

/-- `CodeGen::generate_statement`: the `std::visit` dispatch. -/
def generate_statement (stmt : ASTStmt) (s : CG) : Except CGErr CG :=
  match stmt with
  | .letStmt st => generateLetStatement st s
  | .printStmt st => generatePrintStatement st s
  | .exprStmt st => generateExpressionStatement st s
  | .returnStmt st => generateReturnStatement st s

/-- `CodeGen::generateFunctionBody`: statements in order, the first
failure wrapped with the function's name and propagated. -/
def generateFunctionBody (body : List ASTStmt) (fname : String) (s : CG) :
    Except CGErr CG :=
  match body with
  | [] => .ok s
  | stmt :: rest =>
    match generate_statement stmt s with
    | .error e => .error (.inFunction fname e)
    | .ok s₁ => generateFunctionBody rest fname s₁

/-- The predicate of `CodeGen::addDefaultReturnIfNeeded`'s `any_of`:
`holds_alternative<ASTReturnStmt>`. -/
def isReturnStmt : ASTStmt → Bool
  | .returnStmt _ => true
  | _ => false

/-- `CodeGen::addDefaultReturnIfNeeded`: append `ret i32 0` exactly when
no statement of the body is a `Return`. -/
def addDefaultReturnIfNeeded (body : List ASTStmt) (s : CG) : CG :=
  if body.any isReturnStmt then s
  else { s with instrs := s.instrs ++ [.ret (.constInt 0)] }

/-- One lowered function of the module. -/
structure IRFunc where
  name : String
  instrs : List Instr
deriving DecidableEq, Repr

/-- `CodeGen::generate_function`: resolve the name, start a fresh entry
block with a cleared symbol table (`setupFunctionBody`), lower the
body, then the default-return policy. -/
def generate_function (f : ASTFunction) (s : CG) : Except CGErr (IRFunc × CG) :=
  let funcName := f.name.value.getD "unknown"
  let s₀ : CG := { vars := [], instrs := [], nextId := s.nextId }
  match generateFunctionBody f.body funcName s₀ with
  | .error e => .error e
  | .ok s₁ =>
    let s₂ := addDefaultReturnIfNeeded f.body s₁
    .ok (⟨funcName, s₂.instrs⟩, s₂)

/-- The loop of `CodeGen::generate` over the program's functions. -/
def generateFns (fns : List ASTFunction) (s : CG) : Except CGErr (List IRFunc × CG) :=
  match fns with
  | [] => .ok ([], s)
  | f :: rest =>
    match generate_function f s with
    | .error e => .error e
    | .ok (irf, s₁) =>
      match generateFns rest s₁ with
      | .error e => .error e
      | .ok (irs, s₂) => .ok (irf :: irs, s₂)

/-- `CodeGen::generate` on a freshly constructed `CodeGen`. -/
def generate (p : ASTProgram) : Except CGErr (List IRFunc) :=
  match generateFns p.functions ⟨[], [], 0⟩ with
  | .error e => .error e
  | .ok (irs, _) => .ok irs

/-- The pipeline of main.cpp: tokenize, parse, lower. `none` when an
earlier stage failed (main.cpp exits before reaching codegen). -/
def runPipeline (src : String) : Option (Except CGErr (List IRFunc)) :=
  match tokenizeStr src with
  | .error _ => none
  | .ok ts =>
    match parse ts with
    | .ok prog _ => some (generate prog)
    | _ => none

/-! ## Position bookkeeping invariants of the tokenizer -/

/-- Lexicographic order on token source positions: the line never
decreases, and within a line the column never decreases. -/
def posLe (a b : Token) : Prop :=
  a.line < b.line ∨ (a.line = b.line ∧ a.column ≤ b.column)

theorem classifyWord_pos (buf : String) (line col : Nat) :
    (classifyWord buf line col).line = line ∧
      (classifyWord buf line col).column = col := by
  unfold classifyWord
  split_ifs <;> exact ⟨rfl, rfl⟩

theorem tokenize_ok_chain :
    ∀ (n : Nat) (cs : List Char) (line col : Nat), cs.length ≤ n →
      ∀ ts, tokenize cs line col = .ok ts →
        List.Chain' posLe ts ∧
          ∀ t ∈ ts, line < t.line ∨ (line = t.line ∧ col ≤ t.column) := by
  intro n
  induction n with
  | zero =>
    intro cs line col hn ts h
    have : cs = [] := List.length_eq_zero.mp (by omega)
    subst this
    rw [tokenize.eq_def] at h
    cases h
    exact ⟨List.chain'_nil, by simp⟩
  | succ n ih =>
    intro cs line col hn ts h
    match cs with
    | [] =>
      rw [tokenize.eq_def] at h
      cases h
      exact ⟨List.chain'_nil, by simp⟩
    | c :: cs' =>
      have hlen : cs'.length ≤ n := by
        simp only [List.length_cons] at hn
        omega
      rw [tokenize.eq_def] at h
      simp only [] at h
      split at h
      · -- identifier / keyword branch
        split at h
        next ts' hrec =>
          cases h
          have hrl : (spanAlnum cs').2.length ≤ n :=
            le_trans (spanAlnum_rest_length cs') hlen
          obtain ⟨hch, hbd⟩ := ih _ _ _ hrl _ hrec
          obtain ⟨hl, hc⟩ :=
            classifyWord_pos ⟨c :: (spanAlnum cs').1⟩ line (col + 1 + (spanAlnum cs').1.length)
          constructor
          · rw [List.chain'_cons']
            refine ⟨?_, hch⟩
            intro b hb
            have := hbd b (List.mem_of_mem_head? hb)
            unfold posLe
            omega
          · intro t ht
            rcases List.mem_cons.mp ht with rfl | hm
            · right
              constructor
              · exact hl.symm
              · omega
            · have := hbd t hm
              omega
        next e hrec => exact absurd h (by simp)
      · split at h
        · -- integer literal branch
          split at h
          next ts' hrec =>
            cases h
            have hrl : (spanDigits cs').2.length ≤ n :=
              le_trans (spanDigits_rest_length cs') hlen
            obtain ⟨hch, hbd⟩ := ih _ _ _ hrl _ hrec
            constructor
            · rw [List.chain'_cons']
              refine ⟨?_, hch⟩
              intro b hb
              have := hbd b (List.mem_of_mem_head? hb)
              unfold posLe
              dsimp only
              omega
            · intro t ht
              rcases List.mem_cons.mp ht with rfl | hm
              · right
                refine ⟨rfl, ?_⟩
                dsimp only
                omega
              · have := hbd t hm
                omega
          next e hrec => exact absurd h (by simp)
        · split at h
          next tp hsc =>
            -- single-character token branch
            split at h
            next ts' hrec =>
              cases h
              obtain ⟨hch, hbd⟩ := ih _ _ _ hlen _ hrec
              constructor
              · rw [List.chain'_cons']
                refine ⟨?_, hch⟩
                intro b hb
                have := hbd b (List.mem_of_mem_head? hb)
                unfold posLe
                dsimp only
                omega
              · intro t ht
                rcases List.mem_cons.mp ht with rfl | hm
                · right
                  refine ⟨rfl, ?_⟩
                  dsimp only
                  omega
                · have := hbd t hm
                  omega
            next e hrec => exact absurd h (by simp)
          next hsc =>
            split at h
            · -- whitespace branch
              split at h
              · -- newline
                obtain ⟨hch, hbd⟩ := ih _ _ _ hlen _ h
                refine ⟨hch, ?_⟩
                intro t ht
                have := hbd t ht
                omega
              · -- other whitespace
                obtain ⟨hch, hbd⟩ := ih _ _ _ hlen _ h
                refine ⟨hch, ?_⟩
                intro t ht
                have := hbd t ht
                omega
            · -- unexpected character: an error, not ok
              exact absurd h (by simp)

theorem isSpaceCh_not_token {c : Char} (h : isSpaceCh c = true) :
    isAlphaCh c = false ∧ isDigitCh c = false ∧ singleCharTok c = none := by
  have hc : c = ' ' ∨ c = '\t' ∨ c = '\n' ∨ c = '\x0b' ∨ c = '\x0c' ∨ c = '\r' := by
    simpa [isSpaceCh, or_assoc] using h
  rcases hc with rfl | rfl | rfl | rfl | rfl | rfl <;>
    exact ⟨by decide, by decide, by decide⟩

theorem tokenize_whitespace (n : Nat) :
    ∀ (cs : List Char) (line col : Nat), cs.length ≤ n →
      (∀ c ∈ cs, isSpaceCh c = true) → tokenize cs line col = .ok [] := by
  induction n with
  | zero =>
    intro cs line col hn _
    have : cs = [] := List.length_eq_zero.mp (by omega)
    subst this
    rw [tokenize.eq_def]
  | succ n ih =>
    intro cs line col hn hsp
    match cs with
    | [] => rw [tokenize.eq_def]
    | c :: cs' =>
      have hc := hsp c (by simp)
      obtain ⟨ha, hd, hs⟩ := isSpaceCh_not_token hc
      have hlen : cs'.length ≤ n := by
        simp only [List.length_cons] at hn
        omega
      have hrest : ∀ x ∈ cs', isSpaceCh x = true :=
        fun x hx => hsp x (List.mem_cons_of_mem _ hx)
      rw [tokenize.eq_def]
      simp only [ha, hd, hs, hc, Bool.false_eq_true, if_false, if_true]
      by_cases hnl : c = '\n'
      · rw [if_pos hnl]
        exact ih cs' (line + 1) 2 hlen hrest
      · rw [if_neg hnl]
        exact ih cs' line (col + 2) hlen hrest

theorem tokenize_error_char (n : Nat) :
    ∀ (cs : List Char) (line col : Nat), cs.length ≤ n →
      ∀ e, tokenize cs line col = .error e →
        isAlphaCh e.ch = false ∧ isDigitCh e.ch = false ∧
          singleCharTok e.ch = none ∧ isSpaceCh e.ch = false := by
  induction n with
  | zero =>
    intro cs line col hn e h
    have : cs = [] := List.length_eq_zero.mp (by omega)
    subst this
    rw [tokenize.eq_def] at h
    exact absurd h (by simp)
  | succ n ih =>
    intro cs line col hn e h
    match cs with
    | [] =>
      rw [tokenize.eq_def] at h
      exact absurd h (by simp)
    | c :: cs' =>
      have hlen : cs'.length ≤ n := by
        simp only [List.length_cons] at hn
        omega
      rw [tokenize.eq_def] at h
      simp only [] at h
      split at h
      next hA =>
        split at h
        next => exact absurd h (by simp)
        next e' hrec =>
          cases h
          exact ih _ line _ (le_trans (spanAlnum_rest_length cs') hlen) _ hrec
      next hA =>
        split at h
        next hD =>
          split at h
          next => exact absurd h (by simp)
          next e' hrec =>
            cases h
            exact ih _ line _ (le_trans (spanDigits_rest_length cs') hlen) _ hrec
        next hD =>
          split at h
          next tp hsc =>
            split at h
            next => exact absurd h (by simp)
            next e' hrec =>
              cases h
              exact ih _ line _ hlen _ hrec
          next hsc =>
            split at h
            next hSp =>
              split at h
              · exact ih _ _ _ hlen _ h
              · exact ih _ _ _ hlen _ h
            next hSp =>
              -- the "Unexpected character" site itself
              cases h
              refine ⟨by simpa using hA, by simpa using hD, hsc, by simpa using hSp⟩

/-! ## Helpers for stating the claims -/

/-- The `ASTPrimaryExpr` that `parse_primary` builds from one token: an
`int_lit` token fills the `int_lit` field, an `ident` token the `ident`
field. -/
def primOfToken (t : Token) : ASTPrimaryExpr :=
  if t.type = .int_lit then { int_lit := some t } else { ident := some t }

/-- Arithmetic denotation of an expression whose leaves are integer
literals, evaluating the right-nested tree as built (`/` truncates
toward zero as C does). -/
def evalPrimary (p : ASTPrimaryExpr) : Int :=
  match p.int_lit with
  | some t => stoi (t.value.getD "0")
  | none => 0

/-- Evaluation of the parsed expression tree: the left operand is a
primary, the right operand the recursively evaluated rest. -/
def evalExpr : ASTExpr → Int
  | .prim p => evalPrimary p
  | .bin l op r =>
    match op.type with
    | .plus => evalPrimary l + evalExpr r
    | .minus => evalPrimary l - evalExpr r
    | .star => evalPrimary l * evalExpr r
    | .fslash => Int.tdiv (evalPrimary l) (evalExpr r)
    | _ => 0

/-- The token sequence of `"fn main(){return 1+2*3;}"` exactly as the
tokenizer produces it. -/
def tokens137 : List Token :=
  [⟨.fn, none, 1, 3⟩, ⟨.ident, some "main", 1, 9⟩, ⟨.open_paren, none, 1, 10⟩,
   ⟨.close_paren, none, 1, 11⟩, ⟨.open_curly, none, 1, 12⟩, ⟨.ret, none, 1, 18⟩,
   ⟨.int_lit, some "1", 1, 21⟩, ⟨.plus, none, 1, 22⟩, ⟨.int_lit, some "2", 1, 23⟩,
   ⟨.star, none, 1, 24⟩, ⟨.int_lit, some "3", 1, 25⟩, ⟨.semi, none, 1, 26⟩,
   ⟨.close_curly, none, 1, 27⟩]

/-- The right-nested tree `Binary(1, '+', Binary(2, '*', 3))` the
claim's example must parse to, token positions as the tokenizer
assigns them. -/
def exampleExpr137 : ASTExpr :=
  .bin { int_lit := some ⟨.int_lit, some "1", 1, 21⟩ } ⟨.plus, none, 1, 22⟩
    (.bin { int_lit := some ⟨.int_lit, some "2", 1, 23⟩ } ⟨.star, none, 1, 24⟩
      (.prim { int_lit := some ⟨.int_lit, some "3", 1, 25⟩ }))

/-! ## The claims -/

unseal tokenize in
/-- C2 (code bug): tokens do NOT carry the line/column of their first
character. `make_token` reads the counters after the token's characters
were consumed, and the whitespace branch advances the column twice (once
itself and once in `consume()`), so `"ab"`'s single token — whose first
character is at line 1, column 1 — is recorded at column 3, and
`"\nx"`'s token — first character at line 2, column 1 — is recorded at
column 3 as well. -/
theorem claim_c2_token_positions_bug :
    tokenizeStr "ab" =
      .ok [{ type := .ident, value := some "ab", line := 1, column := 3 }] ∧
    tokenizeStr "\nx" =
      .ok [{ type := .ident, value := some "x", line := 2, column := 3 }] ∧
    (3 : Nat) ≠ 1 :=
  ⟨rfl, rfl, by decide⟩

/-- C8: whenever the tokenizer succeeds, the emitted tokens' (line,
column) positions are monotonically non-decreasing in lexicographic
order: adjacent tokens satisfy `posLe`. -/
theorem claim_c8_positions_monotone (src : String) (ts : List Token)
    (h : tokenizeStr src = .ok ts) : List.Chain' posLe ts :=
  (tokenize_ok_chain src.data.length src.data 1 1 le_rfl ts h).1

unseal tokenize in
/-- C8 witness: the theorem applied to the concrete source `"a\nb"`. -/
theorem claim_c8_witness :
    List.Chain' posLe
      [{ type := .ident, value := some "a", line := 1, column := 2 },
       { type := .ident, value := some "b", line := 2, column := 3 }] :=
  claim_c8_positions_monotone "a\nb" _ rfl

/-- C9: `Parser::parse` never reads past the end of the token buffer on
any input: every `consume()` happens only after `peek()` returned a
token, so the out-of-range path (`POut.overrun`) is unreachable and
every parse ends in a program or a parse error. -/
theorem claim_c9_no_buffer_overrun :
    ∀ (tks : List Token),
      (∃ p i, parse tks = .ok p i) ∨ (∃ e, parse tks = .err e) := by
  intro tks
  match h : parse tks with
  | .ok p i => exact Or.inl ⟨p, i, rfl⟩
  | .err e => exact Or.inr ⟨e, rfl⟩
  | .overrun => exact absurd h (parse_never_overrun tks)

/-- C10: tokenizing the empty source, or any all-whitespace source,
succeeds with an empty token sequence; and an error is returned only at
a character that is not whitespace, starts no identifier or keyword
(not alphabetic), no integer literal (not a digit), and is none of the
recognized punctuation/operator characters. -/
theorem claim_c10_whitespace_and_errors :
    tokenizeStr "" = .ok [] ∧
    (∀ (src : String), (∀ c ∈ src.data, isSpaceCh c = true) →
      tokenizeStr src = .ok []) ∧
    (∀ (src : String) (e : LexErr), tokenizeStr src = .error e →
      isSpaceCh e.ch = false ∧ isAlphaCh e.ch = false ∧
        isDigitCh e.ch = false ∧ singleCharTok e.ch = none) := by
  refine ⟨?_, ?_, ?_⟩
  · unfold tokenizeStr
    rw [tokenize.eq_def]
  · intro src hsp
    exact tokenize_whitespace src.data.length src.data 1 1 le_rfl hsp
  · intro src e h
    obtain ⟨ha, hd, hs, hsp⟩ :=
      tokenize_error_char src.data.length src.data 1 1 le_rfl e h
    exact ⟨hsp, ha, hd, hs⟩

theorem tok_getElem_lt {tks : List Token} {i : Nat} {t : Token}
    (h : tks[i]? = some t) : i < tks.length := by
  by_contra hc
  rw [List.getElem?_eq_none (by omega)] at h
  exact absurd h (by simp)

unseal tokenize parseExpr parseProgram parseFunctionBody in
/-- C1: `parse_expr` on a primary token followed by a binary operator
returns a `BinaryExpr` whose lhs is that primary and whose rhs is the
full recursive parse of the remaining tokens; in particular the example
program parses to the right-nested `Binary(1, '+', Binary(2, '*', 3))`,
whose arithmetic value is `1+(2*3) = 7` and not `(1+2)*3 = 9`. -/
theorem claim_c1_right_nested_parse :
    (∀ (tks : List Token) (i : Nat) (pt op : Token) (rhs : ASTExpr) (j : Nat),
        tks[i]? = some pt →
        pt.type = TokenType.int_lit ∨ pt.type = TokenType.ident →
        tks[i + 1]? = some op →
        isBinaryOperator op.type = true →
        parseExpr tks (i + 2) = .ok rhs j →
        parseExpr tks i = .ok (.bin (primOfToken pt) op rhs) j) ∧
    tokenizeStr "fn main(){return 1+2*3;}" = .ok tokens137 ∧
    parse tokens137 =
      .ok ⟨[⟨⟨.ident, some "main", 1, 9⟩, [.returnStmt ⟨exampleExpr137⟩]⟩]⟩ 0 ∧
    evalExpr exampleExpr137 = 7 ∧
    evalExpr exampleExpr137 ≠ (1 + 2) * 3 := by
  refine ⟨?_, rfl, rfl, by decide, by decide⟩
  intro tks i pt op rhs j hpt hty hop hbin hrec
  have hlt : i < tks.length := tok_getElem_lt hpt
  have hlt2 : i + 1 < tks.length := tok_getElem_lt hop
  have hpk1 : peekT tks i = some pt := by
    unfold peekT
    rw [if_neg (by omega)]
    exact hpt
  have hc1 : consumeT tks i = some (pt, i + 1) := by
    unfold consumeT
    rw [hpt]
  have hpk2 : peekT tks (i + 1) = some op := by
    unfold peekT
    rw [if_neg (by omega)]
    exact hop
  have hc2 : consumeT tks (i + 1) = some (op, i + 2) := by
    unfold consumeT
    rw [hop]
  have hpp : parsePrimary tks i = .ok (some (primOfToken pt)) (i + 1) := by
    unfold parsePrimary primOfToken
    rw [hpk1]
    rcases hty with h | h
    · simp [h, hc1]
    · have hint : pt.type ≠ TokenType.int_lit := by
        rw [h]
        decide
      simp [h, hint, hc1]
  rw [parseExpr.eq_def, hpp]
  dsimp only
  rw [hpk2]
  dsimp only
  rw [if_pos hbin, hc2]
  dsimp only
  rw [hrec]

unseal tokenize parseExpr parseProgram parseFunctionBody in
/-- C3 counterexample: lowering `"fn main(){let x = x; return x;}"`
does NOT fail with `UndefinedVariable` — it succeeds, because
`generateLetStatement` enters `x`'s slot into the symbol table before
lowering the initializer, so the `x` in its own initializer is already
bound and lowers to a load of the (still uninitialized) slot. -/
theorem claim_c3_counterexample :
    runPipeline "fn main(){let x = x; return x;}" =
      some (.ok [⟨"main", [.alloca 0 "x", .load 1 0 "x", .store (.reg 1) 0,
        .load 2 0 "x", .ret (.reg 2)]⟩]) ∧
    ∀ e : CGErr, runPipeline "fn main(){let x = x; return x;}" ≠
      some (.error e) := by
  have h1 : runPipeline "fn main(){let x = x; return x;}" =
      some (.ok [⟨"main", [.alloca 0 "x", .load 1 0 "x", .store (.reg 1) 0,
        .load 2 0 "x", .ret (.reg 2)]⟩]) := rfl
  refine ⟨h1, ?_⟩
  intro e h
  rw [h1] at h
  exact absurd h (by simp)

unseal tokenize parseExpr parseProgram parseFunctionBody in
/-- C3 (amended): when the bound name is new, `generateLetStatement`
lowers the initializer in the scope that ALREADY contains the new
binding (the slot is registered before the initializer is lowered), so
an identifier referenced inside its own `let` initializer is bound and
`"fn main(){let x = x; return x;}"` lowers successfully. -/
theorem claim_c3_amended_binding_before_initializer :
    (∀ (st : ASTLetStmt) (s : CG),
        variableExists s (st.ident.value.getD "") = false →
        generateLetStatement st s =
          (match generateExpr st.expr
              { vars := (st.ident.value.getD "", s.nextId) :: s.vars,
                instrs := s.instrs ++ [.alloca s.nextId (st.ident.value.getD "")],
                nextId := s.nextId + 1 } with
          | .error e => .error e
          | .ok (v, s₂) =>
            .ok { s₂ with instrs := s₂.instrs ++ [.store v s.nextId] })) ∧
    runPipeline "fn main(){let x = x; return x;}" =
      some (.ok [⟨"main", [.alloca 0 "x", .load 1 0 "x", .store (.reg 1) 0,
        .load 2 0 "x", .ret (.reg 2)]⟩]) := by
  refine ⟨?_, rfl⟩
  intro st s hno
  unfold generateLetStatement
  dsimp only
  rw [hno]
  simp

unseal tokenize parseExpr parseProgram parseFunctionBody in
/-- C4: when the body lowered successfully, `generate_function` appends
an implicit `ret i32 0` as the function's final instruction exactly
when the body contains no `Return` statement, and appends nothing when
one is present; lowering `"fn main(){let x=1;}"` produces a function
whose final instruction returns the constant 0. -/
theorem claim_c4_default_return :
    (∀ (f : ASTFunction) (s s₁ : CG),
        generateFunctionBody f.body (f.name.value.getD "unknown")
            { vars := [], instrs := [], nextId := s.nextId } = .ok s₁ →
        (f.body.any isReturnStmt = false →
          generate_function f s =
            .ok (⟨f.name.value.getD "unknown", s₁.instrs ++ [.ret (.constInt 0)]⟩,
              { s₁ with instrs := s₁.instrs ++ [.ret (.constInt 0)] })) ∧
        (f.body.any isReturnStmt = true →
          generate_function f s =
            .ok (⟨f.name.value.getD "unknown", s₁.instrs⟩, s₁))) ∧
    runPipeline "fn main(){let x=1;}" =
      some (.ok [⟨"main",
        [.alloca 0 "x", .store (.constInt 1) 0, .ret (.constInt 0)]⟩]) ∧
    [Instr.alloca 0 "x", .store (.constInt 1) 0,
      .ret (.constInt 0)].getLast? = some (.ret (.constInt 0)) := by
  refine ⟨?_, rfl, by decide⟩
  intro f s s₁ hbody
  unfold generate_function
  dsimp only
  rw [hbody]
  dsimp only
  unfold addDefaultReturnIfNeeded
  constructor
  · intro hno
    rw [hno]
    simp
  · intro hyes
    rw [hyes]
    simp

theorem generatePrimary_err_not_dup {p : ASTPrimaryExpr} {s : CG} {e : CGErr}
    (h : generatePrimary p s = .error e) : ∀ nm, e ≠ .duplicateBinding nm := by
  unfold generatePrimary at h
  split at h
  · exact absurd h (by simp)
  · split at h
    next t =>
      unfold generateVariableAccess at h
      dsimp only at h
      split at h
      next =>
        cases h
        intro nm
        simp
      next => exact absurd h (by simp)
    next =>
      cases h
      intro nm
      simp

theorem generateExpr_err_not_dup :
    ∀ (ex : ASTExpr) (s : CG) (e : CGErr), generateExpr ex s = .error e →
      ∀ nm, e ≠ .duplicateBinding nm := by
  intro ex
  induction ex with
  | prim p =>
    intro s e h
    exact generatePrimary_err_not_dup (by simpa [generateExpr] using h)
  | bin lhs op rhs ih =>
    intro s e h
    unfold generateExpr at h
    split at h
    next e' hl =>
      cases h
      exact generatePrimary_err_not_dup hl
    next l s₁ hl =>
      split at h
      next e' hr =>
        cases h
        exact ih _ _ hr
      next r s₂ hr =>
        unfold generateBinaryOp at h
        split at h
        · exact absurd h (by simp)
        · exact absurd h (by simp)
        · exact absurd h (by simp)
        · exact absurd h (by simp)
        · cases h
          intro nm
          simp

unseal tokenize parseExpr parseProgram parseFunctionBody in
/-- C5: `generateLetStatement` fails with `DuplicateBinding` exactly
when the bound name already has a slot in the current function scope
(when the name is new it never produces that error; it allocates a
fresh slot and, once the initializer lowered, emits a store of its
value into the slot); lowering `"fn main(){let x=5; let x=6; return
x;}"` fails with `DuplicateBinding` naming `x`. -/
theorem claim_c5_duplicate_binding :
    (∀ (st : ASTLetStmt) (s : CG),
        (variableExists s (st.ident.value.getD "") = true →
          generateLetStatement st s =
            .error (.duplicateBinding (st.ident.value.getD ""))) ∧
        (variableExists s (st.ident.value.getD "") = false →
          (∀ (v : Val) (s₂ : CG),
            generateExpr st.expr
                { vars := (st.ident.value.getD "", s.nextId) :: s.vars,
                  instrs := s.instrs ++ [.alloca s.nextId (st.ident.value.getD "")],
                  nextId := s.nextId + 1 } = .ok (v, s₂) →
            generateLetStatement st s =
              .ok { s₂ with instrs := s₂.instrs ++ [.store v s.nextId] }) ∧
          ∀ nm, generateLetStatement st s ≠ .error (.duplicateBinding nm))) ∧
    runPipeline "fn main(){let x=5; let x=6; return x;}" =
      some (.error (.inFunction "main" (.duplicateBinding "x"))) := by
  refine ⟨?_, rfl⟩
  intro st s
  constructor
  · intro hdup
    unfold generateLetStatement
    dsimp only
    rw [if_pos hdup]
  · intro hno
    constructor
    · intro v s₂ hex
      unfold generateLetStatement
      dsimp only
      rw [hno]
      simp only [Bool.false_eq_true, if_false]
      rw [hex]
    · intro nm h
      unfold generateLetStatement at h
      dsimp only at h
      rw [hno] at h
      simp only [Bool.false_eq_true, if_false] at h
      split at h
      next e' hex =>
        cases h
        exact generateExpr_err_not_dup _ _ _ hex nm rfl
      next => exact absurd h (by simp)

unseal parseProgram in
/-- C6: after the function loop, `parse` fails with the missing-main
error exactly when no parsed function is named `"main"` (also for the
empty program), and returns the program when some function is named
`"main"`. -/
theorem claim_c6_missing_main :
    (∀ (tks : List Token) (fns : List ASTFunction) (i : Nat),
        parseProgram tks 0 = .ok fns i →
        ((∀ f ∈ fns, f.name.value ≠ some "main") →
          parse tks = .err .missingMain) ∧
        ((∃ f ∈ fns, f.name.value = some "main") →
          parse tks = .ok ⟨fns⟩ 0)) ∧
    parse [] = .err .missingMain := by
  constructor
  · intro tks fns i hpp
    constructor
    · intro hnone
      unfold parse
      rw [hpp]
      dsimp only
      have hm : hasMainFunction fns = false := by
        unfold hasMainFunction
        rw [List.any_eq_false]
        intro f hf
        simpa using hnone f hf
      rw [hm]
      simp
    · rintro ⟨f, hf, hmain⟩
      unfold parse
      rw [hpp]
      dsimp only
      have hm : hasMainFunction fns = true := by
        unfold hasMainFunction
        rw [List.any_eq_true]
        exact ⟨f, hf, by simpa using hmain⟩
      rw [hm]
      simp
  · rfl

unseal tokenize parseExpr parseProgram parseFunctionBody in
/-- C7: `generateVariableAccess` fails with `UndefinedVariable` exactly
when the referenced name has no slot in the current function scope, and
otherwise emits a load from the slot; lowering `"fn main(){print(y);}"`
fails with `UndefinedVariable` naming `y`. -/
theorem claim_c7_undefined_variable :
    (∀ (t : Token) (s : CG),
        (s.vars.lookup (t.value.getD "") = none →
          generateVariableAccess t s =
            .error (.undefinedVariable (t.value.getD ""))) ∧
        (∀ slot, s.vars.lookup (t.value.getD "") = some slot →
          generateVariableAccess t s =
            .ok (.reg s.nextId,
              { s with instrs := s.instrs ++ [.load s.nextId slot (t.value.getD "")],
                       nextId := s.nextId + 1 }))) ∧
    runPipeline "fn main(){print(y);}" =
      some (.error (.inFunction "main" (.undefinedVariable "y"))) := by
  refine ⟨?_, rfl⟩
  intro t s
  constructor
  · intro hnone
    unfold generateVariableAccess
    dsimp only
    rw [hnone]
  · intro slot hsome
    unfold generateVariableAccess
    dsimp only
    rw [hsome]

end Husk
